import Mathlib

/-!
Verification of the hatchkit PR-thread/checks data-shaping layer.

This file gives a shallow embedding of the pure logic of
`src/hatchkit/gh.py` and `src/hatchkit/pr.py` and proves the testable
properties of the specification against it.

Modelling conventions:
* Parsed JSON values are modelled by the inductive `Json` (numbers as
  integers; no claim involves non-integer numbers).
* The outcome of a hatchkit operation is a `GhOutcome`:
  `ok` is a normal return, `exit code msg` models `typer.Exit(code)`
  raised after printing `msg`, `ghErr msg` models raising `GhError(msg)`,
  and `uncaught name` models a Python exception of type `name`
  propagating out of the function without any handler in the source.
* External library calls (`subprocess.run`, `json.loads`) are modelled
  by explicit data: a `ProcResult` describes the outcome of one
  `subprocess.run` call, and the JSON parser is passed as a function
  `String → Option Json` (`none` = the parse raised `json.JSONDecodeError`).
-/

/-- A parsed JSON value, as produced by `json.loads`.  Numbers are
modelled as integers; no claim in this development involves non-integer
numbers.  Objects are insertion-ordered key/value lists, matching the
behaviour of Python dicts produced by `json.loads`. -/
inductive Json where
  | null : Json
  | bool (b : Bool) : Json
  | num (n : Int) : Json
  | str (s : String) : Json
  | arr (elems : List Json) : Json
  | obj (fields : List (String × Json)) : Json

/-- Outcome of running one hatchkit operation (see module docstring). -/
inductive GhOutcome (α : Type) where
  | ok (val : α) : GhOutcome α
  | exit (code : Nat) (msg : String) : GhOutcome α
  | ghErr (msg : String) : GhOutcome α
  | uncaught (excName : String) : GhOutcome α
deriving DecidableEq

/-- `true` exactly on the two deliberate, typed failure paths of the
source: raising `GhError` and raising `typer.Exit` after printing an
error message.  `uncaught` failures are unhandled Python exceptions and
are not typed errors of the tool. -/
def isTypedError : GhOutcome α → Bool
  | .ghErr _ => true
  | .exit _ _ => true
  | _ => false

/-- The value reported on the success path, if any. -/
def reportedValue : GhOutcome α → Option α
  | .ok v => some v
  | _ => none

/-- First value bound to `key` in an insertion-ordered dict
(Python dict keys are unique, so first = only). -/
def lookupKey (fields : List (String × Json)) (key : String) : Option Json :=
  match fields with
  | [] => none
  | (k, v) :: rest => if k = key then some v else lookupKey rest key

-- ---------------------------------------------------------------------------
-- Remote URL parsing: gh.get_repo_info, lines 25-44
-- ---------------------------------------------------------------------------

/-- `true` iff the segment contains no `/` — the character class `[^/]`
of the two regexes in `get_repo_info`. -/
def noSlash (l : List Char) : Bool :=
  l.all (fun c => c != '/')

/-- Strip an exact literal from the front of a character list
(the literal text at the start of each regex, anchored by `re.match`). -/
def dropLit : List Char → List Char → Option (List Char)
  | [], l => some l
  | _ :: _, [] => none
  | p :: ps, c :: cs => if p = c then dropLit ps cs else none

/-- Split at the first `/`: the greedy group `([^/]+)` followed by the
literal `/` consumes exactly the characters before the first slash. -/
def breakSlash : List Char → Option (List Char × List Char)
  | [] => none
  | c :: cs =>
    if c = '/' then some ([], cs)
    else
      match breakSlash cs with
      | some (a, b) => some (c :: a, b)
      | none => none

/-- The lazy group `([^/]+?)(?:\.git)?$` applied to the remainder after
the slash: a trailing `.git` is stripped exactly when what is left is
non-empty (the lazy group must still match at least one character). -/
def stripDotGit (l : List Char) : List Char :=
  if 4 < l.length ∧ l.drop (l.length - 4) = ['.', 'g', 'i', 't'] then
    l.take (l.length - 4)
  else l

/-- One of the two regexes of `get_repo_info`:
`lit` then `([^/]+)/([^/]+?)(?:\.git)?$`.  Returns the two captured
groups on a match.  The remainder after the first slash must itself be
slash-free and non-empty, since neither group nor the optional suffix
can contain or skip a `/`. -/
def matchShape (lit : List Char) (url : List Char) : Option (List Char × List Char) :=
  match dropLit lit url with
  | none => none
  | some rest =>
    match breakSlash rest with
    | none => none
    | some (owner, repoRaw) =>
      if owner ≠ [] ∧ repoRaw ≠ [] ∧ noSlash repoRaw = true then
        some (owner, stripDotGit repoRaw)
      else none

/-- Literal head of the SSH remote shape `git@github.com:owner/repo[.git]`. -/
def sshLit : List Char := "git@github.com:".data

/-- Literal head of the HTTPS remote shape `https://github.com/owner/repo[.git]`. -/
def httpsLit : List Char := "https://github.com/".data

/-- Lines 33-44 of `gh.py`: try the SSH regex, then the HTTPS regex, on
the stripped remote URL; `none` models the `typer.Exit(1)` raised after
printing the could-not-parse message. -/
def parse_remote_url (url : String) : Option (String × String) :=
  match matchShape sshLit url.data with
  | some (o, r) => some (String.mk o, String.mk r)
  | none =>
    match matchShape httpsLit url.data with
    | some (o, r) => some (String.mk o, String.mk r)
    | none => none

/-- The default whitespace stripped by Python `str.strip` (ASCII part;
no input in this development contains non-ASCII whitespace). -/
def isSpaceChar (c : Char) : Bool :=
  c = ' ' || c = '\t' || c = '\n' || c = '\r' || c = '\x0b' || c = '\x0c'

/-- Python `str.strip()` on both ends. -/
def pyStrip (s : String) : String :=
  String.mk (((s.data.dropWhile isSpaceChar).reverse.dropWhile isSpaceChar).reverse)

/-- `gh.get_repo_info`: strip the raw `git remote get-url origin` stdout,
then parse it. -/
def get_repo_info (stdoutRaw : String) : Option (String × String) :=
  parse_remote_url (pyStrip stdoutRaw)

-- ---------------------------------------------------------------------------
-- Command execution: gh._run_command, lines 132-144
-- ---------------------------------------------------------------------------

/-- Outcome of the `subprocess.run(args, capture_output=True, text=True,
timeout=30)` call inside `_run_command`: a completed process with its
exit code and captured streams, a `FileNotFoundError`, or a
`subprocess.TimeoutExpired` raised at timeout expiry. -/
inductive ProcResult where
  | completed (returncode : Int) (stdout stderr : String) : ProcResult
  | fileNotFound : ProcResult
  | timedOut : ProcResult
deriving DecidableEq

/-- `gh._run_command`.  Only `FileNotFoundError` is caught (printed and
turned into `typer.Exit(1)`); a timeout has no handler in the source, so
`subprocess.TimeoutExpired` propagates uncaught.  A non-zero exit raises
`GhError` with the stripped stderr, or a generic message when stderr is
empty. -/
def run_command (args : List String) (res : ProcResult) : GhOutcome String :=
  match res with
  | .fileNotFound => .exit 1 ("Error: Command not found: " ++ args.headD "")
  | .timedOut => .uncaught "subprocess.TimeoutExpired"
  | .completed returncode out err =>
    if returncode ≠ 0 then
      .ghErr (if pyStrip err ≠ "" then pyStrip err
              else "Command failed with exit code " ++ toString returncode)
    else .ok out

-- ---------------------------------------------------------------------------
-- GraphQL layer: gh._run_graphql, lines 153-176
-- ---------------------------------------------------------------------------

/-- A GraphQL variable value: the callers of `_run_graphql` only ever
put strings and integers in `variables`. -/
inductive GqlValue where
  | intV (n : Int) : GqlValue
  | strV (s : String) : GqlValue
deriving DecidableEq

/-- Lines 162-166: one loop iteration.  `isinstance(value, int)` picks
the `-F` (typed/integer) flag; everything else is passed with `-f`
(string); in both cases the argument is the f-string `f"{key}={value}"`. -/
def encodeVar (key : String) (v : GqlValue) : List String :=
  match v with
  | .intV n => ["-F", key ++ "=" ++ toString n]
  | .strV s => ["-f", key ++ "=" ++ s]

/-- Lines 160-166: the full argument vector handed to `_run_command`,
built from the fixed head and one `encodeVar` block per variable in
mapping (insertion) order. -/
def build_graphql_cmd (query : String) (vars : List (String × GqlValue)) : List String :=
  ["gh", "api", "graphql", "-f", "query=" ++ query] ++
    (vars.map (fun p => encodeVar p.1 p.2)).flatten

mutual

/-- Models Python `str(e)` on a parsed JSON value, used only as the
fallback in `e.get("message", str(e))`.  String escaping inside `repr`
is approximated (plain single quotes); no theorem in this file depends
on this rendering. -/
def pyRepr : Json → String
  | .null => "None"
  | .bool true => "True"
  | .bool false => "False"
  | .num n => toString n
  | .str s => String.singleton '\x27' ++ s ++ String.singleton '\x27'
  | .arr xs => "[" ++ pyReprList xs ++ "]"
  | .obj fs => "\x7b" ++ pyReprFields fs ++ "\x7d"

/-- Comma-separated reprs of the elements of a list. -/
def pyReprList : List Json → String
  | [] => ""
  | [x] => pyRepr x
  | x :: xs => pyRepr x ++ ", " ++ pyReprList xs

/-- Comma-separated `'key': value` reprs of the fields of a dict. -/
def pyReprFields : List (String × Json) → String
  | [] => ""
  | [(k, v)] => String.singleton '\x27' ++ k ++ String.singleton '\x27' ++ ": " ++ pyRepr v
  | (k, v) :: fs =>
    String.singleton '\x27' ++ k ++ String.singleton '\x27' ++ ": " ++ pyRepr v
      ++ ", " ++ pyReprFields fs

end

/-- Line 172, the comprehension
`[e.get("message", str(e)) for e in data["errors"]]`: each element must
be a dict (otherwise `.get` raises `AttributeError` and the
comprehension aborts at that element, modelled as `none`); the resulting
list holds each dict's `message` value, or `str(e)` when the key is
absent. -/
def buildMsgs : List Json → Option (List Json)
  | [] => some []
  | e :: es =>
    match e with
    | .obj fs =>
      (buildMsgs es).map (fun ms =>
        (match lookupKey fs "message" with
         | some v => v
         | none => .str (pyRepr (.obj fs))) :: ms)
    | _ => none

/-- Line 173, `"; ".join(msgs)` accepts the list only when every element
is a string (a non-string element makes `join` raise `TypeError`,
modelled as `none`). -/
def asStrings : List Json → Option (List String)
  | [] => some []
  | .str s :: vs => (asStrings vs).map (fun ss => s :: ss)
  | _ :: _ => none

/-- Lines 171-176 of `_run_graphql`: the membership test
`"errors" in data` and the error branch.  For a dict the test is key
presence; the branch then iterates `data["errors"]`, joins the messages,
prints them, and raises `typer.Exit(1)`.  Non-dict responses and
non-list `errors` values follow the semantics of Python `in`, `[...]`
subscripting and iteration (`in` on a string is a substring test; a
string or a dict can be iterated, a number cannot; a string-or-dict
`errors` value yields elements without `.get`). -/
def graphql_errors_check (data : Json) : GhOutcome Json :=
  match data with
  | .obj fields =>
    match lookupKey fields "errors" with
    | none => .ok data
    | some (.arr es) =>
      match buildMsgs es with
      | none => .uncaught "AttributeError"
      | some vals =>
        match asStrings vals with
        | none => .uncaught "TypeError"
        | some msgs => .exit 1 (String.intercalate "; " msgs)
    | some (.str s) =>
      if s = "" then .exit 1 "" else .uncaught "AttributeError"
    | some (.obj fs) =>
      if fs.isEmpty then .exit 1 "" else .uncaught "AttributeError"
    | some _ => .uncaught "TypeError"
  | .arr elems =>
    if elems.any (fun j => match j with | .str s => s = "errors" | _ => false) then
      .uncaught "TypeError"
    else .ok data
  | .str s =>
    if (s.data.tails.any (fun t => dropLit "errors".data t matches some _)) then
      .uncaught "TypeError"
    else .ok data
  | _ => .uncaught "TypeError"

/-- `gh._run_graphql` from the point where the command has run
(lines 168-176): `loads` stands for `json.loads`, with `none` meaning
the parse raised `json.JSONDecodeError` — the source wraps the call in
no handler, so that exception propagates uncaught.  Failures of the
command itself propagate unchanged. -/
def run_graphql (cmdOut : GhOutcome String) (loads : String → Option Json) : GhOutcome Json :=
  match cmdOut with
  | .ok raw =>
    match loads raw with
    | none => .uncaught "json.JSONDecodeError"
    | some data => graphql_errors_check data
  | .exit c m => .exit c m
  | .ghErr m => .ghErr m
  | .uncaught e => .uncaught e

-- ---------------------------------------------------------------------------
-- Review threads: gh.fetch_review_threads, lines 53-91
-- ---------------------------------------------------------------------------

/-- One review comment, as selected by the fixed GraphQL query. -/
structure ReviewComment where
  authorLogin : String
  body : String
  createdAt : String
deriving DecidableEq

/-- One review thread node, as selected by the fixed GraphQL query
(`path` and `line` may be JSON null). -/
structure ReviewThread where
  id : String
  isResolved : Bool
  path : Option String
  line : Option Int
  comments : List ReviewComment
deriving DecidableEq

/-- Line 89, the comprehension
`[t for t in threads if not t["isResolved"]]`. -/
def keepUnresolved : List ReviewThread → List ReviewThread
  | [] => []
  | t :: ts => if t.isResolved then keepUnresolved ts else t :: keepUnresolved ts

/-- Lines 88-91 of `fetch_review_threads`: the filtering applied to the
fetched thread list (`threads` is the `nodes` list extracted from the
GraphQL response).  With `all_threads=False` (the default) resolved
threads are dropped; with `all_threads=True` the list is returned as
fetched. -/
def fetch_review_threads (threads : List ReviewThread) (all_threads : Bool) : List ReviewThread :=
  if all_threads then threads else keepUnresolved threads

-- ---------------------------------------------------------------------------
-- Combined reply + resolve: pr.reply, lines 117-141
-- ---------------------------------------------------------------------------

/-- `pr.reply` (JSON output path): `replyOut` is the outcome of
`gh.reply_to_thread`, and, when `withResolve` is set (`--resolve`),
`resolveOut` is the outcome of the subsequent `gh.resolve_thread` call.
A failure of either call propagates before any output is produced; only
when every issued call succeeds is the combined object printed.  The
source guards the `resolve` field with `resolve_result is not None`,
which under this model is exactly `withResolve` (a `_run_graphql`
success never yields Python `None`: a top-level JSON null fails the
`"errors" in data` test with `TypeError` first). -/
def reply_command (replyOut : GhOutcome Json) (withResolve : Bool)
    (resolveOut : GhOutcome Json) : GhOutcome Json :=
  match replyOut with
  | .ok r =>
    if withResolve then
      match resolveOut with
      | .ok s => .ok (.obj [("reply", r), ("resolve", s)])
      | .exit c m => .exit c m
      | .ghErr m => .ghErr m
      | .uncaught e => .uncaught e
    else .ok (.obj [("reply", r)])
  | .exit c m => .exit c m
  | .ghErr m => .ghErr m
  | .uncaught e => .uncaught e

-- ---------------------------------------------------------------------------
-- Helper lemmas
-- ---------------------------------------------------------------------------

theorem keepUnresolved_eq_filter (threads : List ReviewThread) :
    keepUnresolved threads = threads.filter (fun t => !t.isResolved) := by
  induction threads with
  | nil => rfl
  | cons t ts ih =>
    by_cases h : t.isResolved <;> simp [keepUnresolved, List.filter, h, ih]

theorem asStrings_map_str (ms : List String) :
    asStrings (ms.map Json.str) = some ms := by
  induction ms with
  | nil => rfl
  | cons s ss ih => simp [asStrings, ih]

theorem dropLit_self_append (p l : List Char) : dropLit p (p ++ l) = some l := by
  induction p with
  | nil => rfl
  | cons c cs ih => simp [dropLit, ih]

theorem dropLit_eq_append {p l r : List Char} (h : dropLit p l = some r) :
    l = p ++ r := by
  induction p generalizing l with
  | nil => simp [dropLit] at h; simp [h]
  | cons c cs ih =>
    cases l with
    | nil => simp [dropLit] at h
    | cons d ds =>
      by_cases hc : c = d
      · subst hc
        simp only [dropLit, if_pos rfl] at h
        simpa using ih h
      · simp [dropLit, hc] at h

theorem breakSlash_append {a : List Char} (b : List Char) (h : noSlash a = true) :
    breakSlash (a ++ '/' :: b) = some (a, b) := by
  induction a with
  | nil => simp [breakSlash]
  | cons c cs ih =>
    simp only [noSlash, List.all_cons, Bool.and_eq_true, bne_iff_ne, ne_eq] at h
    have hrec := ih (by simpa [noSlash] using h.2)
    simp [breakSlash, h.1, hrec]

theorem breakSlash_eq {l : List Char} {a b : List Char}
    (h : breakSlash l = some (a, b)) :
    l = a ++ '/' :: b ∧ noSlash a = true := by
  induction l generalizing a with
  | nil => simp [breakSlash] at h
  | cons c cs ih =>
    by_cases hc : c = '/'
    · subst hc
      simp [breakSlash] at h
      obtain ⟨ha, hb⟩ := h
      subst ha; subst hb
      exact ⟨rfl, rfl⟩
    · simp only [breakSlash, if_neg hc] at h
      cases hrec : breakSlash cs with
      | none => rw [hrec] at h; exact absurd h (by simp)
      | some p =>
        obtain ⟨a', b'⟩ := p
        rw [hrec] at h
        simp only [Option.some_inj, Prod.mk.injEq] at h
        obtain ⟨ha, hb⟩ := h
        subst hb
        obtain ⟨hl, hs⟩ := ih hrec
        subst ha
        refine ⟨by simp [hl], ?_⟩
        simp [noSlash, List.all_cons, hc]
        simpa [noSlash] using hs

theorem stripDotGit_append (m : List Char) (hm : m ≠ []) :
    stripDotGit (m ++ ['.', 'g', 'i', 't']) = m := by
  have hlen : (m ++ ['.', 'g', 'i', 't']).length = m.length + 4 := by simp
  have hpos : 0 < m.length := List.length_pos.mpr hm
  unfold stripDotGit
  rw [if_pos]
  · rw [hlen]
    simp
  · refine ⟨by omega, ?_⟩
    rw [hlen]
    simp

theorem stripDotGit_noSlash {l : List Char} (h : noSlash l = true) :
    noSlash (stripDotGit l) = true := by
  unfold stripDotGit
  split
  · simp only [noSlash, List.all_eq_true] at h ⊢
    exact fun c hc => h c (List.take_subset _ _ hc)
  · exact h

theorem stripDotGit_ne_nil {l : List Char} (h : l ≠ []) :
    stripDotGit l ≠ [] := by
  unfold stripDotGit
  split
  · next hcond =>
    have h4 := hcond.1
    intro hnil
    have hlen := congrArg List.length hnil
    simp only [List.length_take, List.length_nil] at hlen
    omega
  · exact h

theorem matchShape_valid (lit owner repoRaw : List Char)
    (ho : owner ≠ []) (hos : noSlash owner = true)
    (hr : repoRaw ≠ []) (hrs : noSlash repoRaw = true) :
    matchShape lit (lit ++ (owner ++ '/' :: repoRaw)) = some (owner, stripDotGit repoRaw) := by
  simp [matchShape, dropLit_self_append, breakSlash_append _ hos, ho, hr, hrs]

theorem matchShape_inv {lit url o r : List Char}
    (h : matchShape lit url = some (o, r)) :
    ∃ owner repoRaw, url = lit ++ (owner ++ '/' :: repoRaw)
      ∧ owner ≠ [] ∧ noSlash owner = true
      ∧ repoRaw ≠ [] ∧ noSlash repoRaw = true
      ∧ o = owner ∧ r = stripDotGit repoRaw := by
  unfold matchShape at h
  split at h
  · exact absurd h (by simp)
  · next rest hd =>
    split at h
    · exact absurd h (by simp)
    · next owner repoRaw hb =>
      split at h
      · next hcond =>
        simp only [Option.some_inj, Prod.mk.injEq] at h
        obtain ⟨ho, hr⟩ := h
        obtain ⟨hrest, hons⟩ := breakSlash_eq hb
        exact ⟨owner, repoRaw, by rw [dropLit_eq_append hd, hrest],
          hcond.1, hons, hcond.2.1, hcond.2.2, ho.symm, hr.symm⟩
      · exact absurd h (by simp)

/-- Claim C3: for every remote URL of the accepted SSH or HTTPS shape on
the fixed `github.com` host, `parse` returns exactly the owner and repo
segments, with a trailing `.git` suffix stripped (the hypothesis
`stripDotGit repo.data = repo.data` says that `repo` is the repository
name proper, i.e. carries no strippable `.git` tail of its own). -/
theorem parse_remote_url_valid (owner repo : String)
    (ho : owner.data ≠ []) (hos : noSlash owner.data = true)
    (hr : repo.data ≠ []) (hrs : noSlash repo.data = true)
    (hng : stripDotGit repo.data = repo.data) :
    parse_remote_url ("git@github.com:" ++ owner ++ "/" ++ repo) = some (owner, repo)
    ∧ parse_remote_url ("git@github.com:" ++ owner ++ "/" ++ repo ++ ".git") = some (owner, repo)
    ∧ parse_remote_url ("https://github.com/" ++ owner ++ "/" ++ repo) = some (owner, repo)
    ∧ parse_remote_url ("https://github.com/" ++ owner ++ "/" ++ repo ++ ".git")
        = some (owner, repo) := by
  obtain ⟨od⟩ := owner
  obtain ⟨rd⟩ := repo
  simp only [String.data] at ho hos hr hrs hng
  have hr4 : rd ++ ['.', 'g', 'i', 't'] ≠ [] := by simp
  have hrs4 : noSlash (rd ++ ['.', 'g', 'i', 't']) = true := by
    simp only [noSlash, List.all_append, Bool.and_eq_true] at hrs ⊢
    exact ⟨hrs, by decide⟩
  have hsshOnHttps : ∀ x : List Char, matchShape sshLit (httpsLit ++ x) = none := by
    intro x
    have hcons : httpsLit ++ x = 'h' :: ("ttps://github.com/".data ++ x) := rfl
    rw [hcons, show sshLit = 'g' :: "it@github.com:".data from rfl]
    simp [matchShape, dropLit]
  refine ⟨?_, ?_, ?_, ?_⟩
  · have hdata : ("git@github.com:" ++ ⟨od⟩ ++ "/" ++ (⟨rd⟩ : String) : String).data
        = sshLit ++ (od ++ '/' :: rd) := by simp [sshLit]
    simp only [parse_remote_url, hdata,
      matchShape_valid sshLit od rd ho hos hr hrs, hng]
  · have hdata : ("git@github.com:" ++ ⟨od⟩ ++ "/" ++ ⟨rd⟩ ++ ".git" : String).data
        = sshLit ++ (od ++ '/' :: (rd ++ ['.', 'g', 'i', 't'])) := by simp [sshLit]
    simp only [parse_remote_url, hdata,
      matchShape_valid sshLit od (rd ++ ['.', 'g', 'i', 't']) ho hos hr4 hrs4,
      stripDotGit_append rd hr]
  · have hdata : ("https://github.com/" ++ ⟨od⟩ ++ "/" ++ (⟨rd⟩ : String) : String).data
        = httpsLit ++ (od ++ '/' :: rd) := by simp [httpsLit]
    simp only [parse_remote_url, hdata, hsshOnHttps,
      matchShape_valid httpsLit od rd ho hos hr hrs, hng]
  · have hdata : ("https://github.com/" ++ ⟨od⟩ ++ "/" ++ ⟨rd⟩ ++ ".git" : String).data
        = httpsLit ++ (od ++ '/' :: (rd ++ ['.', 'g', 'i', 't'])) := by simp [httpsLit]
    simp only [parse_remote_url, hdata, hsshOnHttps,
      matchShape_valid httpsLit od (rd ++ ['.', 'g', 'i', 't']) ho hos hr4 hrs4,
      stripDotGit_append rd hr]

theorem parse_remote_url_valid_witness :
    parse_remote_url "git@github.com:bob/cool-project.git" = some ("bob", "cool-project")
    ∧ parse_remote_url "https://github.com/bob/cool-project" = some ("bob", "cool-project") := by
  have h := parse_remote_url_valid "bob" "cool-project"
    (by decide) (by decide) (by decide) (by decide) (by decide)
  have e1 : ("git@github.com:" ++ "bob" ++ "/" ++ "cool-project" ++ ".git" : String)
      = "git@github.com:bob/cool-project.git" := by decide
  have e2 : ("https://github.com/" ++ "bob" ++ "/" ++ "cool-project" : String)
      = "https://github.com/bob/cool-project" := by decide
  have h1 := h.2.1
  have h2 := h.2.2.1
  rw [e1] at h1
  rw [e2] at h2
  exact ⟨h1, h2⟩

/-- The two accepted remote-URL shapes of `get_repo_info`: the fixed
host literal, a non-empty slash-free owner segment, one slash, and a
non-empty slash-free remainder. -/
def goodRemoteShape (url : String) : Prop :=
  ∃ owner repoRaw : List Char,
    owner ≠ [] ∧ noSlash owner = true ∧ repoRaw ≠ [] ∧ noSlash repoRaw = true
    ∧ (url.data = sshLit ++ (owner ++ '/' :: repoRaw)
       ∨ url.data = httpsLit ++ (owner ++ '/' :: repoRaw))

/-- Claim C4: `parse` only ever succeeds on a URL of one of the two
accepted shapes on the fixed GitHub host — any URL with another host or
a malformed path (no owner/repo split, extra path segments) fails — and
in particular `https://gitlab.com/x/y.git` fails. -/
theorem parse_remote_url_rejects :
    (∀ (url : String) (owner repo : String),
        parse_remote_url url = some (owner, repo) → goodRemoteShape url)
    ∧ parse_remote_url "https://gitlab.com/x/y.git" = none := by
  constructor
  · intro url owner repo h
    unfold parse_remote_url at h
    cases hs : matchShape sshLit url.data with
    | some p =>
      obtain ⟨o, r⟩ := p
      obtain ⟨ow, rr, hurl, h1, h2, h3, h4, _, _⟩ := matchShape_inv hs
      exact ⟨ow, rr, h1, h2, h3, h4, Or.inl hurl⟩
    | none =>
      rw [hs] at h
      cases hh : matchShape httpsLit url.data with
      | some p =>
        obtain ⟨o, r⟩ := p
        obtain ⟨ow, rr, hurl, h1, h2, h3, h4, _, _⟩ := matchShape_inv hh
        exact ⟨ow, rr, h1, h2, h3, h4, Or.inr hurl⟩
      | none => rw [hh] at h; exact absurd h (by simp)
  · decide

theorem parse_remote_url_rejects_witness : goodRemoteShape "git@github.com:bob/x.git" :=
  parse_remote_url_rejects.1 "git@github.com:bob/x.git" "bob" "x" (by decide)

theorem matchShape_fields {lit url o r : List Char}
    (h : matchShape lit url = some (o, r)) :
    o ≠ [] ∧ noSlash o = true ∧ r ≠ [] ∧ noSlash r = true := by
  obtain ⟨ow, rr, _, h1, h2, h3, h4, ho, hr⟩ := matchShape_inv h
  subst ho; subst hr
  exact ⟨h1, h2, stripDotGit_ne_nil h3, stripDotGit_noSlash h4⟩

/-- Claim C9: every pair that `parse` returns satisfies the RemoteRef
invariant — both fields are non-empty and contain no path separator. -/
theorem parse_remote_url_invariant (url owner repo : String)
    (h : parse_remote_url url = some (owner, repo)) :
    owner.data ≠ [] ∧ noSlash owner.data = true
    ∧ repo.data ≠ [] ∧ noSlash repo.data = true := by
  unfold parse_remote_url at h
  cases hs : matchShape sshLit url.data with
  | some p =>
    obtain ⟨o, r⟩ := p
    rw [hs] at h
    simp only [Option.some_inj, Prod.mk.injEq] at h
    obtain ⟨ho, hr⟩ := h
    subst ho; subst hr
    exact matchShape_fields hs
  | none =>
    rw [hs] at h
    cases hh : matchShape httpsLit url.data with
    | some p =>
      obtain ⟨o, r⟩ := p
      rw [hh] at h
      simp only [Option.some_inj, Prod.mk.injEq] at h
      obtain ⟨ho, hr⟩ := h
      subst ho; subst hr
      exact matchShape_fields hh
    | none => rw [hh] at h; exact absurd h (by simp)

theorem parse_remote_url_invariant_witness :
    ("bob" : String).data ≠ [] ∧ noSlash ("bob" : String).data = true
    ∧ ("cool-project" : String).data ≠ [] ∧ noSlash ("cool-project" : String).data = true :=
  parse_remote_url_invariant "git@github.com:bob/cool-project.git" "bob" "cool-project"
    (by decide)

/-- Claim C1: for every fetched list of review threads,
`fetch_review_threads` with `all_threads=false` returns exactly the
subsequence of threads whose `isResolved` field is false (it equals the
order-preserving filter, is a sublist of the input, and contains exactly
the unresolved input threads), and with `all_threads=true` it returns
the full list unfiltered. -/
theorem fetch_review_threads_filter_spec (threads : List ReviewThread) :
    fetch_review_threads threads false = threads.filter (fun t => !t.isResolved)
    ∧ (fetch_review_threads threads false).Sublist threads
    ∧ (∀ t, t ∈ fetch_review_threads threads false ↔ t ∈ threads ∧ t.isResolved = false)
    ∧ fetch_review_threads threads true = threads := by
  have h1 : fetch_review_threads threads false = threads.filter (fun t => !t.isResolved) := by
    simp [fetch_review_threads, keepUnresolved_eq_filter]
  refine ⟨h1, ?_, ?_, rfl⟩
  · rw [h1]; exact List.filter_sublist threads
  · intro t; rw [h1]; simp

/-- Two sample threads, matching the scenario in the specification: one
open, one resolved. -/
def sampleThreadOpen : ReviewThread :=
  ⟨"t1", false, some "f.py", some 10, [⟨"rev", "fix", "now"⟩]⟩

/-- The resolved sample thread. -/
def sampleThreadResolved : ReviewThread :=
  ⟨"t2", true, some "g.py", some 5, []⟩

theorem fetch_review_threads_filter_spec_witness :
    fetch_review_threads [sampleThreadOpen, sampleThreadResolved] false = [sampleThreadOpen]
    ∧ fetch_review_threads [sampleThreadOpen, sampleThreadResolved] true
        = [sampleThreadOpen, sampleThreadResolved] := by
  have h := fetch_review_threads_filter_spec [sampleThreadOpen, sampleThreadResolved]
  refine ⟨?_, h.2.2.2⟩
  rw [h.1]; rfl

/-- Claim C2: whenever the parsed response object carries a non-empty
`errors` list (each entry a dict with a string `message`),
`_run_graphql` raises `typer.Exit(1)` after printing the joined error
messages, and never returns the parsed value — also when a `data` field
is present in the same object (`fields` is arbitrary). -/
theorem graphql_errors_nonempty_fails (fields : List (String × Json)) (es : List Json)
    (ms : List String)
    (hkey : lookupKey fields "errors" = some (.arr es))
    (_hne : es ≠ [])
    (hmsgs : buildMsgs es = some (ms.map Json.str)) :
    graphql_errors_check (.obj fields) = .exit 1 (String.intercalate "; " ms)
    ∧ ∀ v, graphql_errors_check (.obj fields) ≠ .ok v := by
  have h1 : graphql_errors_check (.obj fields) = .exit 1 (String.intercalate "; " ms) := by
    simp [graphql_errors_check, hkey, hmsgs, asStrings_map_str]
  exact ⟨h1, fun v hv => by rw [h1] at hv; exact GhOutcome.noConfusion hv⟩

theorem graphql_errors_nonempty_fails_witness :
    graphql_errors_check (.obj [("errors",
        .arr [.obj [("message", .str "boom")], .obj [("message", .str "bad")]]),
        ("data", .str "payload")])
      = .exit 1 "boom; bad" := by
  have h := graphql_errors_nonempty_fails
    [("errors", .arr [.obj [("message", .str "boom")], .obj [("message", .str "bad")]]),
     ("data", .str "payload")]
    [.obj [("message", .str "boom")], .obj [("message", .str "bad")]]
    ["boom", "bad"] rfl (List.cons_ne_nil _ _) rfl
  rw [h.1]
  congr 1

/-- Claim C10: presence of the `errors` key — not non-emptiness of its
value — makes `_run_graphql` fail: no response object containing the key
is ever returned, and the concrete response with `errors: []` next to a
valid `data` field is rejected with `typer.Exit(1)` and an empty joined
message. -/
theorem graphql_errors_key_presence :
    (∀ (fields : List (String × Json)) (v : Json),
        lookupKey fields "errors" = some v →
        ∀ x, graphql_errors_check (.obj fields) ≠ .ok x)
    ∧ graphql_errors_check (.obj [("errors", .arr []), ("data", .str "payload")])
        = .exit 1 "" := by
  constructor
  · intro fields v hkey x
    cases v with
    | arr es =>
      simp only [graphql_errors_check, hkey]
      cases hb : buildMsgs es with
      | none => simp
      | some vals =>
        cases hs : asStrings vals with
        | none => simp [hs]
        | some msgs => simp [hs]
    | str s =>
      simp only [graphql_errors_check, hkey]
      by_cases hs : s = "" <;> simp [hs]
    | obj fs =>
      simp only [graphql_errors_check, hkey]
      by_cases hf : fs.isEmpty <;> simp [hf]
    | null => simp [graphql_errors_check, hkey]
    | bool b => simp [graphql_errors_check, hkey]
    | num n => simp [graphql_errors_check, hkey]
  · rfl

theorem graphql_errors_key_presence_witness :
    graphql_errors_check (.obj [("errors", .arr []), ("data", .str "payload")])
      ≠ .ok (.obj [("errors", .arr []), ("data", .str "payload")]) :=
  graphql_errors_key_presence.1 [("errors", .arr []), ("data", .str "payload")]
    (.arr []) rfl _

/-- Claim C5: in the argument list built by `_run_graphql`, every
integer-valued variable appears with the `-F` flag and every other value
with the `-f` flag, each rendered as `key=value`; the encoded block of
every variable of the mapping occurs inside the built argument list. -/
theorem build_graphql_cmd_encoding (query : String) (vars : List (String × GqlValue))
    (key : String) (v : GqlValue) (h : (key, v) ∈ vars) :
    (∃ l₁ l₂, build_graphql_cmd query vars = l₁ ++ encodeVar key v ++ l₂)
    ∧ (∀ n, v = .intV n → encodeVar key v = ["-F", key ++ "=" ++ toString n])
    ∧ (∀ s, v = .strV s → encodeVar key v = ["-f", key ++ "=" ++ s]) := by
  refine ⟨?_, fun n hn => by rw [hn]; rfl, fun s hs => by rw [hs]; rfl⟩
  have hbody : ∃ l₁ l₂,
      (vars.map (fun p => encodeVar p.1 p.2)).flatten = l₁ ++ encodeVar key v ++ l₂ := by
    induction vars with
    | nil => cases h
    | cons p ps ih =>
      cases List.mem_cons.mp h with
      | inl heq =>
        refine ⟨[], (ps.map (fun q => encodeVar q.1 q.2)).flatten, ?_⟩
        rw [← heq]
        simp
      | inr hmem =>
        obtain ⟨a, b, hab⟩ := ih hmem
        exact ⟨encodeVar p.1 p.2 ++ a, b, by simp [hab]⟩
  obtain ⟨a, b, hab⟩ := hbody
  exact ⟨["gh", "api", "graphql", "-f", "query=" ++ query] ++ a, b,
    by simp [build_graphql_cmd, hab]⟩

theorem build_graphql_cmd_encoding_witness :
    (∃ l₁ l₂, build_graphql_cmd "Q" [("owner", .strV "a"), ("repo", .strV "b"), ("pr", .intV 7)]
        = l₁ ++ ["-f", "owner=a"] ++ l₂)
    ∧ (∃ l₁ l₂, build_graphql_cmd "Q" [("owner", .strV "a"), ("repo", .strV "b"), ("pr", .intV 7)]
        = l₁ ++ ["-f", "repo=b"] ++ l₂)
    ∧ (∃ l₁ l₂, build_graphql_cmd "Q" [("owner", .strV "a"), ("repo", .strV "b"), ("pr", .intV 7)]
        = l₁ ++ ["-F", "pr=7"] ++ l₂) := by
  have h1 := build_graphql_cmd_encoding "Q"
    [("owner", .strV "a"), ("repo", .strV "b"), ("pr", .intV 7)] "owner" (.strV "a") (by decide)
  have h2 := build_graphql_cmd_encoding "Q"
    [("owner", .strV "a"), ("repo", .strV "b"), ("pr", .intV 7)] "repo" (.strV "b") (by decide)
  have h3 := build_graphql_cmd_encoding "Q"
    [("owner", .strV "a"), ("repo", .strV "b"), ("pr", .intV 7)] "pr" (.intV 7) (by decide)
  refine ⟨?_, ?_, ?_⟩
  · obtain ⟨a, b, hab⟩ := h1.1
    exact ⟨a, b, by rw [hab]; rfl⟩
  · obtain ⟨a, b, hab⟩ := h2.1
    exact ⟨a, b, by rw [hab]; rfl⟩
  · obtain ⟨a, b, hab⟩ := h3.1
    exact ⟨a, b, by rw [hab]; rfl⟩

/-- Claim C6 counterexample: with a successful reply and a failing
resolve call, the combined command propagates the resolve failure and
reports no value at all — the successful reply result is silently
dropped from the reported outcome, contradicting the claim that it is
always reported alongside the resolve failure. -/
theorem reply_command_drop_counterexample :
    reply_command (.ok (.obj [("data", .str "c1")])) true (.ghErr "timed out")
        = .ghErr "timed out"
    ∧ reportedValue
        (reply_command (.ok (.obj [("data", .str "c1")])) true (.ghErr "timed out")) = none :=
  ⟨rfl, rfl⟩

/-- Claim C6 (amended): when the reply succeeds and the subsequent
resolve call fails, the combined command propagates the resolve failure
as its whole outcome and reports nothing — the reply result is dropped
from the output (the reply itself is not rolled back; it simply goes
unreported).  Only when both calls succeed is the combined
`{reply, resolve}` object reported, and without `--resolve` the reply
result alone is. -/
theorem reply_command_resolve_failure (r : Json) :
    (∀ c m, reply_command (.ok r) true (.exit c m) = .exit c m
      ∧ reportedValue (reply_command (.ok r) true (.exit c m)) = none)
    ∧ (∀ m, reply_command (.ok r) true (.ghErr m) = .ghErr m
      ∧ reportedValue (reply_command (.ok r) true (.ghErr m)) = none)
    ∧ (∀ e, reply_command (.ok r) true (.uncaught e) = .uncaught e
      ∧ reportedValue (reply_command (.ok r) true (.uncaught e)) = none)
    ∧ (∀ s, reply_command (.ok r) true (.ok s) = .ok (.obj [("reply", r), ("resolve", s)]))
    ∧ (∀ o, reply_command (.ok r) false o = .ok (.obj [("reply", r)])) :=
  ⟨fun _ _ => ⟨rfl, rfl⟩, fun _ => ⟨rfl, rfl⟩, fun _ => ⟨rfl, rfl⟩,
   fun _ => rfl, fun _ => rfl⟩

theorem reply_command_resolve_failure_witness :
    reply_command (.ok (.str "c1")) true (.uncaught "subprocess.TimeoutExpired")
      = .uncaught "subprocess.TimeoutExpired" :=
  ((reply_command_resolve_failure (.str "c1")).2.2.1 "subprocess.TimeoutExpired").1

/-- Claim C7 counterexample: on a response text the JSON parser rejects,
`_run_graphql` does not fail with any typed error — the decode exception
propagates uncaught (the source wraps `json.loads` in no handler and has
no MalformedResponse error at all). -/
theorem run_graphql_invalid_json_counterexample :
    run_graphql (.ok "not json") (fun _ => none) = .uncaught "json.JSONDecodeError"
    ∧ isTypedError (run_graphql (.ok "not json") (fun _ => none)) = false :=
  ⟨rfl, rfl⟩

/-- Claim C7 (amended): for every response text on which the JSON parse
fails, `_run_graphql` never returns a value — but it fails by letting
the untyped `json.JSONDecodeError` propagate, not with a typed error. -/
theorem run_graphql_invalid_json (loads : String → Option Json) (raw : String)
    (h : loads raw = none) :
    run_graphql (.ok raw) loads = .uncaught "json.JSONDecodeError"
    ∧ isTypedError (run_graphql (.ok raw) loads) = false
    ∧ ∀ v, run_graphql (.ok raw) loads ≠ .ok v := by
  have h1 : run_graphql (.ok raw) loads = .uncaught "json.JSONDecodeError" := by
    simp [run_graphql, h]
  exact ⟨h1, by rw [h1]; rfl,
    fun v hv => by rw [h1] at hv; exact GhOutcome.noConfusion hv⟩

theorem run_graphql_invalid_json_witness :
    run_graphql (.ok "oops") (fun _ => none) = .uncaught "json.JSONDecodeError" :=
  (run_graphql_invalid_json (fun _ => none) "oops" rfl).1

/-- Claim C8 counterexample: timeout expiry is not treated like a
process failure — the timeout produces an untyped
`subprocess.TimeoutExpired` propagating out of `_run_command`, while a
non-zero exit produces the typed `GhError`. -/
theorem run_command_timeout_counterexample :
    run_command ["git", "remote", "get-url", "origin"] .timedOut
        = .uncaught "subprocess.TimeoutExpired"
    ∧ isTypedError (run_command ["git", "remote", "get-url", "origin"] .timedOut) = false
    ∧ isTypedError (run_command ["git", "remote", "get-url", "origin"]
        (.completed 1 "" "fatal: boom")) = true :=
  ⟨rfl, rfl, rfl⟩

/-- Claim C8 (amended): a timed-out command makes `_run_command` raise
the distinct untyped `subprocess.TimeoutExpired` exception, whereas
every non-zero exit raises the typed `GhError`; the two failure modes
are not identical. -/
theorem run_command_timeout (args : List String) :
    run_command args .timedOut = .uncaught "subprocess.TimeoutExpired"
    ∧ isTypedError (run_command args .timedOut) = false
    ∧ (∀ (code : Int) (out err : String), code ≠ 0 →
        ∃ m, run_command args (.completed code out err) = .ghErr m
          ∧ isTypedError (run_command args (.completed code out err)) = true) := by
  refine ⟨rfl, rfl, fun code out err hc => ?_⟩
  refine ⟨if pyStrip err ≠ "" then pyStrip err
          else "Command failed with exit code " ++ toString code, ?_, ?_⟩
  · simp [run_command, hc]
  · simp [run_command, hc, isTypedError]

theorem run_command_timeout_witness :
    ∃ m, run_command ["git", "status"] (.completed 1 "out" "boom") = .ghErr m
      ∧ isTypedError (run_command ["git", "status"] (.completed 1 "out" "boom")) = true :=
  (run_command_timeout ["git", "status"]).2.2 1 "out" "boom" (by decide)
